import Mathlib

/-!
# Rolling sphere: trajectory generator and mesh loader

A shallow embedding of `sphere_wireframe.cpp`.

* `float` values are idealised as elements of a linearly ordered field `K`
  (the theorems take `K = ℝ`); rounding, infinities and NaN are not modelled.
* `sqrt` (used by `glm::length` and `glm::normalize`) is an explicit
  parameter of the definitions; the theorems instantiate it with `Real.sqrt`.
* `fmod` is the C library function: the remainder of the division truncated
  towards zero, so the result has the sign of the dividend.
* The input file of `readSphereFile` is a list of whitespace-separated
  numeric tokens.
-/

namespace RollingBall

/-! ## Vectors (glm) -/

/-- The type `glm::vec3`. -/
structure Vec3 (K : Type) where
  x : K
  y : K
  z : K
deriving DecidableEq

/-- The type `glm::vec4`. -/
structure Vec4 (K : Type) where
  x : K
  y : K
  z : K
  w : K
deriving DecidableEq

section Glm

variable {K : Type} [LinearOrderedField K]

/-- Componentwise `operator-` on `glm::vec4`. -/
def Vec4.sub (a b : Vec4 K) : Vec4 K := ⟨a.x - b.x, a.y - b.y, a.z - b.z, a.w - b.w⟩

/-- The conversion `glm::vec3(v)` of a `vec4`: the first three components. -/
def vec3 (v : Vec4 K) : Vec3 K := ⟨v.x, v.y, v.z⟩

/-- Componentwise `operator+` on `glm::vec3`. -/
def Vec3.add (a b : Vec3 K) : Vec3 K := ⟨a.x + b.x, a.y + b.y, a.z + b.z⟩

/-- Componentwise `operator-` on `glm::vec3`. -/
def Vec3.sub (a b : Vec3 K) : Vec3 K := ⟨a.x - b.x, a.y - b.y, a.z - b.z⟩

/-- The product `v * s` of a `glm::vec3` with a scalar. -/
def Vec3.scale (v : Vec3 K) (s : K) : Vec3 K := ⟨v.x * s, v.y * s, v.z * s⟩

/-- The function `glm::dot` on `vec3`. -/
def dot (a b : Vec3 K) : K := a.x * b.x + a.y * b.y + a.z * b.z

/-- The function `glm::cross`. -/
def cross (a b : Vec3 K) : Vec3 K :=
  ⟨a.y * b.z - b.y * a.z, a.z * b.x - b.z * a.x, a.x * b.y - b.x * a.y⟩

/-- The function `glm::length`: `sqrt(dot(v, v))`. -/
def length (sqrt : K → K) (v : Vec3 K) : K := sqrt (dot v v)

/-- The function `glm::normalize`: `v * inversesqrt(dot(v, v))`. -/
def normalize (sqrt : K → K) (v : Vec3 K) : Vec3 K := v.scale (1 / sqrt (dot v v))

/-- The zero vector. -/
def Vec3.zero : Vec3 K := ⟨0, 0, 0⟩

/-- The world up vector `glm::vec3(0.0f, 1.0f, 0.0f)`. -/
def up : Vec3 K := ⟨0, 1, 0⟩

end Glm

/-! ## Path constants -/

section Constants

variable {K : Type} [LinearOrderedField K]

/-- Linear speed, units per second. -/
def SPEED : K := 2

/-- Sphere radius. -/
def RADIUS : K := 1

/-- Waypoint `A`. -/
def A : Vec4 K := ⟨-4, 1, 4, 1⟩

/-- Waypoint `B`. -/
def B : Vec4 K := ⟨3, 1, -4, 1⟩

/-- Waypoint `C`. -/
def C : Vec4 K := ⟨-3, 1, -3, 1⟩

/-- Length of segment `A → B`. -/
def distAB (sqrt : K → K) : K := length sqrt (vec3 (B.sub A))

/-- Length of segment `B → C`. -/
def distBC (sqrt : K → K) : K := length sqrt (vec3 (C.sub B))

/-- Length of segment `C → A`. -/
def distCA (sqrt : K → K) : K := length sqrt (vec3 (A.sub C))

/-- Perimeter of the path (`totalDist`). -/
def totalDist (sqrt : K → K) : K := distAB sqrt + distBC sqrt + distCA sqrt

/-- Duration of one loop (`cycleTime = totalDist / SPEED`). -/
def cycleTime (sqrt : K → K) : K := totalDist sqrt / SPEED

/-- Duration of segment `A → B`. -/
def timeAB (sqrt : K → K) : K := distAB sqrt / SPEED

/-- Duration of segment `B → C`. -/
def timeBC (sqrt : K → K) : K := distBC sqrt / SPEED

/-- Duration of segment `C → A`. -/
def timeCA (sqrt : K → K) : K := distCA sqrt / SPEED

end Constants

/-! ## Trajectory generator -/

section Trajectory

variable {K : Type} [LinearOrderedField K] [FloorRing K]

/-- C `trunc`: the integer nearest to `q` that is not larger in magnitude. -/
def trunc (q : K) : Int := if 0 ≤ q then ⌊q⌋ else ⌈q⌉

/-- C `fmod`: `x - trunc(x / y) * y`. -/
def fmod (x y : K) : K := x - (trunc (x / y) : K) * y

/-- The function `getPosition`: the returned position paired with the value
written to `totalRotation`. -/
def getPosition (sqrt : K → K) (t : K) : Vec3 K × K :=
  let distAB := length sqrt (vec3 (B.sub A))
  let distBC := length sqrt (vec3 (C.sub B))
  let distCA := length sqrt (vec3 (A.sub C))
  let totalDist := distAB + distBC + distCA
  let cycleTime := totalDist / SPEED
  let normalizedTime := fmod t cycleTime
  let timeAB := distAB / SPEED
  let timeBC := distBC / SPEED
  if normalizedTime ≤ timeAB then
    let progress := normalizedTime / timeAB
    ((vec3 A).add ((vec3 (B.sub A)).scale progress), (distAB * progress) / RADIUS)
  else if normalizedTime ≤ timeAB + timeBC then
    let progress := (normalizedTime - timeAB) / timeBC
    ((vec3 B).add ((vec3 (C.sub B)).scale progress), (distAB + distBC * progress) / RADIUS)
  else
    let timeCA := distCA / SPEED
    let progress := (normalizedTime - timeAB - timeBC) / timeCA
    ((vec3 C).add ((vec3 (A.sub C)).scale progress),
      (distAB + distBC + distCA * progress) / RADIUS)

/-- The body of the `A to B` branch of `getPosition` at a given `progress`. -/
def branchAB (sqrt : K → K) (progress : K) : Vec3 K × K :=
  ((vec3 A).add ((vec3 (B.sub A)).scale progress), (distAB sqrt * progress) / RADIUS)

/-- The body of the `B to C` branch of `getPosition` at a given `progress`. -/
def branchBC (sqrt : K → K) (progress : K) : Vec3 K × K :=
  ((vec3 B).add ((vec3 (C.sub B)).scale progress),
    (distAB sqrt + distBC sqrt * progress) / RADIUS)

/-- The body of the `C to A` branch of `getPosition` at a given `progress`. -/
def branchCA (sqrt : K → K) (progress : K) : Vec3 K × K :=
  ((vec3 C).add ((vec3 (A.sub C)).scale progress),
    (distAB sqrt + distBC sqrt + distCA sqrt * progress) / RADIUS)

/-- The arc length of the specification: the length measured along the path
`A → B → C → A` from `A` to the position returned by `getPosition t`, that is,
the full lengths of the completed segments plus the distance from the active
segment's start point to the returned position. -/
def arcLength (sqrt : K → K) (t : K) : K :=
  let position := (getPosition sqrt t).1
  let normalizedTime := fmod t (cycleTime sqrt)
  if normalizedTime ≤ timeAB sqrt then
    length sqrt (position.sub (vec3 A))
  else if normalizedTime ≤ timeAB sqrt + timeBC sqrt then
    distAB sqrt + length sqrt (position.sub (vec3 B))
  else
    distAB sqrt + distBC sqrt + length sqrt (position.sub (vec3 C))

/-- Auxiliary for the continuity proofs: with `a`, `b`, `c` the values of one
coordinate at the waypoints `A`, `B`, `C`, the value of that coordinate computed
by the three branches of `getPosition` at normalized time `n`. -/
def loopCoord (sqrt : K → K) (a b c : K) (n : K) : K :=
  if n ≤ timeAB sqrt then a + (b - a) * (n / timeAB sqrt)
  else if n ≤ timeAB sqrt + timeBC sqrt then b + (c - b) * ((n - timeAB sqrt) / timeBC sqrt)
  else c + (a - c) * ((n - timeAB sqrt - timeBC sqrt) / timeCA sqrt)

/-- The function `getRotationAxis`. -/
def getRotationAxis (sqrt : K → K) (direction : Vec3 K) : Vec3 K :=
  normalize sqrt (cross direction ⟨0, 1, 0⟩)

/-- The travel direction chosen by `render` at animation time `t`. -/
def renderDirection (sqrt : K → K) (animationTime : K) : Vec3 K :=
  let timeAB := distAB sqrt / SPEED
  let timeBC := distBC sqrt / SPEED
  let totalDist := distAB sqrt + distBC sqrt + distCA sqrt
  let normalizedTime := fmod animationTime (totalDist / SPEED)
  if normalizedTime ≤ timeAB then normalize sqrt (vec3 (B.sub A))
  else if normalizedTime ≤ timeAB + timeBC then normalize sqrt (vec3 (C.sub B))
  else normalize sqrt (vec3 (A.sub C))

/-- The rotation axis `render` passes to `glm::rotate` at animation time `t`. -/
def renderAxis (sqrt : K → K) (animationTime : K) : Vec3 K :=
  getRotationAxis sqrt (renderDirection sqrt animationTime)

/-- The velocity of the sphere's point of contact with the plane, in the words
of the specification: `v + cross(w, -RADIUS * up)`, where the centre moves with
velocity `v = SPEED * d` and the orientation turns with angular velocity
`w = (SPEED / RADIUS) * getRotationAxis(d)`. -/
def contactVelocity (sqrt : K → K) (d : Vec3 K) : Vec3 K :=
  let v := d.scale SPEED
  let w := (getRotationAxis sqrt d).scale (SPEED / RADIUS)
  v.add (cross w (up.scale (-RADIUS)))

end Trajectory

/-! ## Mesh loader -/

/-- A whitespace-separated numeric token of the input file: an integer literal
such as `3` or `-12`, which both `file >> n` (an `int`) and `file >> x` (a
`float`) consume whole, or another decimal literal such as `0.5`, which
`file >> x` consumes whole. -/
inductive Token where
  | int (n : Int)
  | real (q : ℚ)
deriving DecidableEq

/-- The struct `Triangle`: the array `vertices[3]`. -/
structure Triangle where
  vertices0 : Vec4 ℚ
  vertices1 : Vec4 ℚ
  vertices2 : Vec4 ℚ
deriving DecidableEq

/-- The extraction `file >> n` for an `int`: the value and the rest of the
stream. The result is `none` when the next token is not an integer literal or
the stream is exhausted; what the program does from there on depends on the
stream's failure state and on uninitialised variables, and is not modelled. -/
def readInt : List Token → Option (Int × List Token)
  | Token.int n :: rest => some (n, rest)
  | _ => none

/-- The extraction `file >> x` for a `float`; `none` when the stream is
exhausted. -/
def readFloat : List Token → Option (ℚ × List Token)
  | Token.int n :: rest => some ((n : ℚ), rest)
  | Token.real q :: rest => some (q, rest)
  | [] => none

/-- One pass of the inner loop: `file >> x >> y >> z` and
`glm::vec4(x, y, z, 1.0f)`. -/
def readVertex (file : List Token) : Option (Vec4 ℚ × List Token) :=
  match readFloat file with
  | none => none
  | some (x, file1) =>
    match readFloat file1 with
    | none => none
    | some (y, file2) =>
      match readFloat file2 with
      | none => none
      | some (z, file3) => some (⟨x, y, z, 1⟩, file3)

/-- The loop `for (int i = 0; i < numTriangles; ++i)` with `remaining`
iterations left, the unread part of the stream and the triangles pushed so
far. -/
def readTriangles : Nat → List Token → List Triangle → Option (List Triangle)
  | 0, _, triangles => some triangles
  | remaining + 1, file, triangles =>
    match readInt file with
    | none => none
    | some (n, file1) =>
      if n ≠ 3 then readTriangles remaining file1 triangles
      else
        match readVertex file1 with
        | none => none
        | some (v0, file2) =>
          match readVertex file2 with
          | none => none
          | some (v1, file3) =>
            match readVertex file3 with
            | none => none
            | some (v2, file4) => readTriangles remaining file4 (triangles ++ [⟨v0, v1, v2⟩])

/-- The function `readSphereFile`. The argument is `none` when the file cannot
be opened and the token stream of the file otherwise. -/
def readSphereFile (file : Option (List Token)) : Option (List Triangle) :=
  match file with
  | none => some []
  | some tokens =>
    match readInt tokens with
    | none => none
    | some (numTriangles, rest) => readTriangles numTriangles.toNat rest []

/-- The value `file >> x` gives a token read as a `float`. -/
def Token.value : Token → ℚ
  | Token.int n => (n : ℚ)
  | Token.real q => q

/-- A well-formed record of the input format:
`3 x1 y1 z1 x2 y2 z2 x3 y3 z3`. -/
structure Record where
  x1 : Token
  y1 : Token
  z1 : Token
  x2 : Token
  y2 : Token
  z2 : Token
  x3 : Token
  y3 : Token
  z3 : Token

/-- The tokens of a well-formed record, in file order. -/
def Record.tokens (r : Record) : List Token :=
  [Token.int 3, r.x1, r.y1, r.z1, r.x2, r.y2, r.z2, r.x3, r.y3, r.z3]

/-- The triangle a well-formed record describes: vertex `j` is
`(x_j, y_j, z_j, 1)`. -/
def Record.triangle (r : Record) : Triangle :=
  ⟨⟨r.x1.value, r.y1.value, r.z1.value, 1⟩, ⟨r.x2.value, r.y2.value, r.z2.value, 1⟩,
    ⟨r.x3.value, r.y3.value, r.z3.value, 1⟩⟩

/-- The token stream of a well-formed file: the count followed by the
records. -/
def wellFormedFile (records : List Record) : List Token :=
  Token.int records.length :: (records.map Record.tokens).flatten

/-! ## Basic facts -/

theorem getPosition_eq {K : Type} [LinearOrderedField K] [FloorRing K] (sqrt : K → K) (t : K) :
    getPosition sqrt t =
      if fmod t (cycleTime sqrt) ≤ timeAB sqrt then
        branchAB sqrt (fmod t (cycleTime sqrt) / timeAB sqrt)
      else if fmod t (cycleTime sqrt) ≤ timeAB sqrt + timeBC sqrt then
        branchBC sqrt ((fmod t (cycleTime sqrt) - timeAB sqrt) / timeBC sqrt)
      else
        branchCA sqrt
          ((fmod t (cycleTime sqrt) - timeAB sqrt - timeBC sqrt) / timeCA sqrt) := rfl

section Dots

variable {K : Type} [LinearOrderedField K]

theorem dot_BA : dot (vec3 (B.sub A)) (vec3 (B.sub A)) = (113 : K) := by
  simp only [dot, vec3, Vec4.sub, A, B]; norm_num

theorem dot_CB : dot (vec3 (C.sub B)) (vec3 (C.sub B)) = (37 : K) := by
  simp only [dot, vec3, Vec4.sub, B, C]; norm_num

theorem dot_AC : dot (vec3 (A.sub C)) (vec3 (A.sub C)) = (50 : K) := by
  simp only [dot, vec3, Vec4.sub, A, C]; norm_num

end Dots

theorem distAB_real : distAB Real.sqrt = √113 := by
  simp only [distAB, length, dot_BA]

theorem distBC_real : distBC Real.sqrt = √37 := by
  simp only [distBC, length, dot_CB]

theorem distCA_real : distCA Real.sqrt = √50 := by
  simp only [distCA, length, dot_AC]

theorem distAB_pos : 0 < distAB Real.sqrt := by
  rw [distAB_real]; exact Real.sqrt_pos.mpr (by norm_num)

theorem distBC_pos : 0 < distBC Real.sqrt := by
  rw [distBC_real]; exact Real.sqrt_pos.mpr (by norm_num)

theorem distCA_pos : 0 < distCA Real.sqrt := by
  rw [distCA_real]; exact Real.sqrt_pos.mpr (by norm_num)

theorem timeAB_pos : 0 < timeAB Real.sqrt := by
  unfold timeAB SPEED; have := distAB_pos; positivity

theorem timeBC_pos : 0 < timeBC Real.sqrt := by
  unfold timeBC SPEED; have := distBC_pos; positivity

theorem timeCA_pos : 0 < timeCA Real.sqrt := by
  unfold timeCA SPEED; have := distCA_pos; positivity

theorem cycleTime_eq : cycleTime Real.sqrt =
    timeAB Real.sqrt + timeBC Real.sqrt + timeCA Real.sqrt := by
  unfold cycleTime totalDist timeAB timeBC timeCA; ring

theorem cycleTime_pos : 0 < cycleTime Real.sqrt := by
  rw [cycleTime_eq]; have := timeAB_pos; have := timeBC_pos; have := timeCA_pos; positivity

section Fmod

variable {K : Type} [LinearOrderedField K] [FloorRing K]

theorem fmod_zero_left (c : K) : fmod 0 c = 0 := by
  simp [fmod, trunc]

theorem fmod_of_nonneg {t c : K} (ht : 0 ≤ t) (hc : 0 < c) :
    fmod t c = t - (⌊t / c⌋ : K) * c := by
  have : 0 ≤ t / c := div_nonneg ht hc.le
  simp [fmod, trunc, this]

theorem fmod_nonneg {t c : K} (ht : 0 ≤ t) (hc : 0 < c) : 0 ≤ fmod t c := by
  rw [fmod_of_nonneg ht hc]
  have h := Int.floor_le (t / c)
  have := (le_div_iff₀ hc).mp h
  linarith

theorem fmod_lt {t c : K} (ht : 0 ≤ t) (hc : 0 < c) : fmod t c < c := by
  rw [fmod_of_nonneg ht hc]
  have h := Int.lt_floor_add_one (t / c)
  have := (div_lt_iff₀ hc).mp h
  linarith

theorem fmod_add_period {t c : K} (ht : 0 ≤ t) (hc : 0 < c) : fmod (t + c) c = fmod t c := by
  rw [fmod_of_nonneg ht hc, fmod_of_nonneg (by linarith) hc]
  have : (t + c) / c = t / c + 1 := by field_simp
  rw [this, Int.floor_add_one]
  push_cast
  ring

theorem trunc_of_nonpos {q : K} (hq : q ≤ 0) : trunc q = ⌈q⌉ := by
  unfold trunc
  split_ifs with h
  · have : q = 0 := le_antisymm hq h
    simp [this]
  · rfl

theorem fmod_of_nonpos {t c : K} (ht : t ≤ 0) (hc : 0 < c) :
    fmod t c = t - (⌈t / c⌉ : K) * c := by
  have : t / c ≤ 0 := div_nonpos_of_nonpos_of_nonneg ht hc.le
  simp [fmod, trunc_of_nonpos this]

theorem fmod_add_period_of_le {t c : K} (ht : t ≤ -c) (hc : 0 < c) :
    fmod (t + c) c = fmod t c := by
  rw [fmod_of_nonpos (by linarith) hc, fmod_of_nonpos (by linarith) hc]
  have : (t + c) / c = t / c + 1 := by field_simp
  rw [this, Int.ceil_add_one]
  push_cast
  ring

theorem fmod_of_window {t c : K} (h1 : -c < t) (h2 : t < 0) : fmod t c = t := by
  have hc : 0 < c := by linarith
  rw [fmod_of_nonpos h2.le hc]
  have : ⌈t / c⌉ = 0 := by
    rw [Int.ceil_eq_iff]
    constructor
    · rw [lt_div_iff₀ hc]; push_cast; linarith
    · exact_mod_cast div_nonpos_of_nonpos_of_nonneg h2.le hc.le
  simp [this]

theorem fmod_of_lt {t c : K} (h1 : 0 ≤ t) (h2 : t < c) : fmod t c = t := by
  have hc : 0 < c := by linarith
  rw [fmod_of_nonneg h1 hc]
  have : ⌊t / c⌋ = 0 := by
    rw [Int.floor_eq_iff]
    constructor
    · exact_mod_cast div_nonneg h1 hc.le
    · rw [div_lt_iff₀ hc]; push_cast; linarith
  simp [this]

end Fmod

/-! ## Rotation angle as a function of time -/

/-- In every branch the angle written by `getPosition` is
`SPEED * normalizedTime / RADIUS`. -/
theorem rotation_eq (t : ℝ) :
    (getPosition Real.sqrt t).2 = SPEED * fmod t (cycleTime Real.sqrt) / RADIUS := by
  have h1 := distAB_pos
  have h2 := distBC_pos
  have h3 := distCA_pos
  rw [getPosition_eq]
  split_ifs
  · simp only [branchAB, timeAB, SPEED, RADIUS]; field_simp; ring
  · simp only [branchBC, timeAB, timeBC, SPEED, RADIUS]; field_simp; ring
  · simp only [branchCA, timeAB, timeBC, timeCA, SPEED, RADIUS]; field_simp; ring

theorem rotation_window {t : ℝ} (h1 : -cycleTime Real.sqrt < t) (h2 : t < 0) :
    (getPosition Real.sqrt t).2 < 0 ∧ 0 < (getPosition Real.sqrt (t + cycleTime Real.sqrt)).2 := by
  rw [rotation_eq, rotation_eq, fmod_of_window h1 h2,
    fmod_of_lt (by linarith) (by linarith)]
  simp only [SPEED, RADIUS]
  constructor <;> linarith

theorem one_lt_cycleTime : 1 < cycleTime Real.sqrt := by
  have h : (2 : ℝ) < distAB Real.sqrt := by
    rw [distAB_real, Real.lt_sqrt (by norm_num)]; norm_num
  have h2 := distBC_pos
  have h3 := distCA_pos
  unfold cycleTime totalDist SPEED
  rw [lt_div_iff₀ (by norm_num)]
  linarith

/-! ## Periodicity -/

/-- C1, as stated, fails: at `t = -1` the rotation angle written by
`getPosition(t)` is negative while the one written by
`getPosition(t + cycleTime)` is positive. -/
theorem periodicity_fails_at_neg_one :
    getPosition Real.sqrt (-1) ≠ getPosition Real.sqrt (-1 + cycleTime Real.sqrt) := by
  have h := rotation_window (t := -1) (by have := one_lt_cycleTime; linarith) (by norm_num)
  intro heq
  rw [heq] at h
  linarith [h.1, h.2]

/-- C1, amended: `getPosition(t)` and `getPosition(t + cycleTime)` return the
same position and the same rotation angle exactly when `t ≥ 0` or
`t ≤ -cycleTime`; in particular for every `t ≥ 0`. -/
theorem getPosition_periodic_iff (t : ℝ) :
    getPosition Real.sqrt (t + cycleTime Real.sqrt) = getPosition Real.sqrt t ↔
      (0 ≤ t ∨ t ≤ -cycleTime Real.sqrt) := by
  constructor
  · intro heq
    by_contra hcon
    push_neg at hcon
    have h := rotation_window hcon.2 hcon.1
    rw [heq] at h
    linarith [h.1, h.2]
  · rintro (h | h)
    · rw [getPosition_eq, getPosition_eq, fmod_add_period h cycleTime_pos]
    · rw [getPosition_eq, getPosition_eq, fmod_add_period_of_le h cycleTime_pos]

/-! ## Rolling without slipping: magnitude -/

theorem length_scale (v : Vec3 ℝ) {s : ℝ} (hs : 0 ≤ s) :
    length Real.sqrt (v.scale s) = length Real.sqrt v * s := by
  have : dot (v.scale s) (v.scale s) = dot v v * (s * s) := by
    simp only [dot, Vec3.scale]; ring
  simp only [length]
  rw [this, Real.sqrt_mul' _ (mul_self_nonneg s), Real.sqrt_mul_self hs]

theorem add_scale_sub (a v : Vec3 ℝ) (s : ℝ) : ((a.add (v.scale s)).sub a) = v.scale s := by
  simp [Vec3.add, Vec3.sub, Vec3.scale]

/-- C2: for every `t ≥ 0` the rotation angle written by `getPosition(t)` is
`arcLength(t) / RADIUS`, where `arcLength(t)` is the length along the path from
`A` to the returned position, and it is `SPEED * fmod(t, cycleTime) / RADIUS`. -/
theorem rotation_eq_arcLength_div_radius (t : ℝ) (ht : 0 ≤ t) :
    (getPosition Real.sqrt t).2 = arcLength Real.sqrt t / RADIUS ∧
      (getPosition Real.sqrt t).2 = SPEED * fmod t (cycleTime Real.sqrt) / RADIUS := by
  refine ⟨?_, rotation_eq t⟩
  have hn := fmod_nonneg ht cycleTime_pos
  have hAB := timeAB_pos
  have hBC := timeBC_pos
  have hCA := timeCA_pos
  unfold arcLength
  rw [getPosition_eq]
  simp only
  split_ifs with h1 h2
  · have hp : 0 ≤ fmod t (cycleTime Real.sqrt) / timeAB Real.sqrt := div_nonneg hn hAB.le
    simp only [branchAB, add_scale_sub, length_scale _ hp]
    rfl
  · have hp : 0 ≤ (fmod t (cycleTime Real.sqrt) - timeAB Real.sqrt) / timeBC Real.sqrt :=
      div_nonneg (by linarith) hBC.le
    simp only [branchBC, add_scale_sub, length_scale _ hp]
    rfl
  · have hp : 0 ≤ (fmod t (cycleTime Real.sqrt) - timeAB Real.sqrt - timeBC Real.sqrt) /
        timeCA Real.sqrt := div_nonneg (by linarith) hCA.le
    simp only [branchCA, add_scale_sub, length_scale _ hp]
    rfl

theorem rotation_eq_arcLength_div_radius_witness :
    (0 : ℝ) ≤ 1 ∧ ((getPosition Real.sqrt 1).2 = arcLength Real.sqrt 1 / RADIUS ∧
      (getPosition Real.sqrt 1).2 = SPEED * fmod 1 (cycleTime Real.sqrt) / RADIUS) :=
  ⟨by norm_num, rotation_eq_arcLength_div_radius 1 (by norm_num)⟩

/-! ## Corners of the path -/

theorem timeAB_lt_cycleTime : timeAB Real.sqrt < cycleTime Real.sqrt := by
  rw [cycleTime_eq]; have := timeBC_pos; have := timeCA_pos; linarith

theorem timeAB_add_timeBC_lt_cycleTime :
    timeAB Real.sqrt + timeBC Real.sqrt < cycleTime Real.sqrt := by
  rw [cycleTime_eq]; have := timeCA_pos; linarith

theorem getPosition_timeAB :
    getPosition Real.sqrt (timeAB Real.sqrt) = branchAB Real.sqrt 1 := by
  rw [getPosition_eq, fmod_of_lt timeAB_pos.le timeAB_lt_cycleTime, if_pos le_rfl,
    div_self timeAB_pos.ne.symm]

theorem getPosition_timeAB_add_timeBC :
    getPosition Real.sqrt (timeAB Real.sqrt + timeBC Real.sqrt) = branchBC Real.sqrt 1 := by
  have h1 := timeAB_pos
  have h2 := timeBC_pos
  rw [getPosition_eq, fmod_of_lt (by linarith) timeAB_add_timeBC_lt_cycleTime,
    if_neg (by linarith), if_pos le_rfl, add_sub_cancel_left, div_self h2.ne.symm]

theorem fmod_self {c : ℝ} (hc : 0 < c) : fmod c c = 0 := by
  rw [fmod_of_nonneg hc.le hc, div_self hc.ne.symm]
  simp

theorem getPosition_cycleTime :
    getPosition Real.sqrt (cycleTime Real.sqrt) = branchAB Real.sqrt 0 := by
  rw [getPosition_eq, fmod_self cycleTime_pos, if_pos timeAB_pos.le, zero_div]

/-- The auxiliary `loopCoord` is continuous in the normalized time. -/
theorem loopCoord_continuous (a b c : ℝ) : Continuous (loopCoord Real.sqrt a b c) := by
  have h1 := timeAB_pos
  have h2 := timeBC_pos
  unfold loopCoord
  refine Continuous.if_le (by fun_prop) ?_ continuous_id continuous_const ?_
  · refine Continuous.if_le (by fun_prop) (by fun_prop) continuous_id continuous_const ?_
    intro n hn
    have e1 : timeAB Real.sqrt + timeBC Real.sqrt - timeAB Real.sqrt = timeBC Real.sqrt := by
      ring
    rw [hn, e1, sub_self, div_self h2.ne.symm, zero_div]
    ring
  · intro n hn
    rw [hn, if_pos (by linarith), div_self h1.ne.symm, sub_self, zero_div]
    ring

theorem loopCoord_zero (a b c : ℝ) : loopCoord Real.sqrt a b c 0 = a := by
  unfold loopCoord
  rw [if_pos timeAB_pos.le, zero_div]
  ring

theorem loopCoord_cycleTime (a b c : ℝ) :
    loopCoord Real.sqrt a b c (cycleTime Real.sqrt) = a := by
  have h3 := timeCA_pos
  have e : cycleTime Real.sqrt - timeAB Real.sqrt - timeBC Real.sqrt = timeCA Real.sqrt := by
    rw [cycleTime_eq]; ring
  unfold loopCoord
  rw [if_neg (not_le.mpr timeAB_lt_cycleTime),
    if_neg (not_le.mpr timeAB_add_timeBC_lt_cycleTime), e, div_self h3.ne.symm]
  ring

/-- Through the wrap `fmod t cycleTime` the auxiliary `loopCoord` is a
continuous function of the time `t ≥ 0`: the loop closes at `a`. -/
theorem loopCoord_fmod_continuousOn (a b c : ℝ) :
    ContinuousOn (fun t : ℝ => loopCoord Real.sqrt a b c (fmod t (cycleTime Real.sqrt)))
      (Set.Ici 0) := by
  have hc := cycleTime_pos
  have hG : Continuous (fun u : ℝ => loopCoord Real.sqrt a b c (cycleTime Real.sqrt * u)) :=
    (loopCoord_continuous a b c).comp (continuous_const.mul continuous_id)
  have h01 : (fun u : ℝ => loopCoord Real.sqrt a b c (cycleTime Real.sqrt * u)) 0 =
      (fun u : ℝ => loopCoord Real.sqrt a b c (cycleTime Real.sqrt * u)) 1 := by
    simp only [mul_zero, mul_one, loopCoord_zero, loopCoord_cycleTime]
  have hH := (hG.continuousOn.comp_fract'' h01).comp
    (continuous_id.div_const (cycleTime Real.sqrt))
  refine hH.continuousOn.congr ?_
  intro t ht
  have hf : fmod t (cycleTime Real.sqrt) =
      cycleTime Real.sqrt * Int.fract (t / cycleTime Real.sqrt) := by
    rw [fmod_of_nonneg ht hc, Int.fract]
    field_simp
    ring
  simp only [Function.comp, id, hf]

theorem getPosition_coords (t : ℝ) :
    (getPosition Real.sqrt t).1 =
      ⟨loopCoord Real.sqrt (-4) 3 (-3) (fmod t (cycleTime Real.sqrt)),
        loopCoord Real.sqrt 1 1 1 (fmod t (cycleTime Real.sqrt)),
        loopCoord Real.sqrt 4 (-4) (-3) (fmod t (cycleTime Real.sqrt))⟩ := by
  rw [getPosition_eq]
  unfold loopCoord
  split_ifs <;>
    simp [branchAB, branchBC, branchCA, Vec3.add, Vec3.scale, vec3, Vec4.sub, A, B, C]

/-- C4: at each of the three boundaries the incoming branch at progress `1`
and the outgoing branch at progress `0` give the corner waypoint, the position
returned at the boundary times is that corner, and each coordinate of the
returned position is a continuous function of `t ≥ 0`: there is no jump. -/
theorem position_continuous_at_boundaries :
    ((branchAB Real.sqrt 1).1 = vec3 B ∧ (branchBC Real.sqrt 0).1 = vec3 B) ∧
    ((branchBC Real.sqrt 1).1 = vec3 C ∧ (branchCA Real.sqrt 0).1 = vec3 C) ∧
    ((branchCA Real.sqrt 1).1 = vec3 A ∧ (branchAB Real.sqrt 0).1 = vec3 A) ∧
    ((getPosition Real.sqrt (timeAB Real.sqrt)).1 = vec3 B ∧
      (getPosition Real.sqrt (timeAB Real.sqrt + timeBC Real.sqrt)).1 = vec3 C ∧
      (getPosition Real.sqrt (cycleTime Real.sqrt)).1 = vec3 A ∧
      (getPosition Real.sqrt 0).1 = vec3 A) ∧
    (ContinuousOn (fun t => (getPosition Real.sqrt t).1.x) (Set.Ici 0) ∧
      ContinuousOn (fun t => (getPosition Real.sqrt t).1.y) (Set.Ici 0) ∧
      ContinuousOn (fun t => (getPosition Real.sqrt t).1.z) (Set.Ici 0)) := by
  have e1 : (branchAB Real.sqrt 1).1 = vec3 B := by
    simp [branchAB, Vec3.add, Vec3.scale, vec3, Vec4.sub, A, B]
  have e2 : (branchBC Real.sqrt 1).1 = vec3 C := by
    simp [branchBC, Vec3.add, Vec3.scale, vec3, Vec4.sub, B, C]
  have e3 : (branchAB Real.sqrt 0).1 = vec3 A := by
    simp [branchAB, Vec3.add, Vec3.scale, vec3, Vec4.sub, A, B]
  refine ⟨⟨e1, ?_⟩, ⟨e2, ?_⟩, ⟨?_, e3⟩, ⟨?_, ?_, ?_, ?_⟩, ?_, ?_, ?_⟩
  · simp [branchBC, Vec3.add, Vec3.scale, vec3, Vec4.sub, B, C]
  · simp [branchCA, Vec3.add, Vec3.scale, vec3, Vec4.sub, A, C]
  · simp [branchCA, Vec3.add, Vec3.scale, vec3, Vec4.sub, A, C]
  · rw [getPosition_timeAB, e1]
  · rw [getPosition_timeAB_add_timeBC, e2]
  · rw [getPosition_cycleTime, e3]
  · rw [getPosition_eq, fmod_zero_left, if_pos timeAB_pos.le, zero_div, e3]
  · refine (loopCoord_fmod_continuousOn (-4) 3 (-3)).congr ?_
    intro t _
    simp only [getPosition_coords]
  · refine (loopCoord_fmod_continuousOn 1 1 1).congr ?_
    intro t _
    simp only [getPosition_coords]
  · refine (loopCoord_fmod_continuousOn 4 (-4) (-3)).congr ?_
    intro t _
    simp only [getPosition_coords]

/-- C5, as stated, fails at corner `A`: the `C to A` branch at progress `1`
writes the angle `totalDist / RADIUS`, which is positive, and the `A to B`
branch at progress `0` writes the angle `0`. -/
theorem rotation_jump_at_corner_A :
    (branchCA Real.sqrt 1).2 = totalDist Real.sqrt / RADIUS ∧
      (branchAB Real.sqrt 0).2 = 0 ∧
      (branchCA Real.sqrt 1).2 ≠ (branchAB Real.sqrt 0).2 := by
  have h1 := distAB_pos
  have h2 := distBC_pos
  have h3 := distCA_pos
  have ha : (branchCA Real.sqrt 1).2 = totalDist Real.sqrt / RADIUS := by
    simp [branchCA, totalDist]
  have hb : (branchAB Real.sqrt 0).2 = 0 := by simp [branchAB]
  refine ⟨ha, hb, ?_⟩
  rw [ha, hb]
  simp only [totalDist, RADIUS, div_one]
  exact (by linarith : (0 : ℝ) < _).ne.symm

/-- C5, amended: at corners `B` and `C` the angle written by the incoming
branch at progress `1` equals the angle written by the outgoing branch at
progress `0`; at corner `A` the incoming angle is `totalDist / RADIUS` and the
outgoing angle is `0`. Within a cycle the angle is `SPEED * t / RADIUS`, and at
`t = cycleTime` it is `0` again. -/
theorem rotation_at_corners :
    (branchAB Real.sqrt 1).2 = (branchBC Real.sqrt 0).2 ∧
    (branchBC Real.sqrt 1).2 = (branchCA Real.sqrt 0).2 ∧
    ((branchCA Real.sqrt 1).2 = totalDist Real.sqrt / RADIUS ∧ (branchAB Real.sqrt 0).2 = 0) ∧
    (∀ t : ℝ, 0 ≤ t → t < cycleTime Real.sqrt →
      (getPosition Real.sqrt t).2 = SPEED * t / RADIUS) ∧
    (getPosition Real.sqrt (cycleTime Real.sqrt)).2 = 0 := by
  refine ⟨?_, ?_, ⟨?_, ?_⟩, ?_, ?_⟩
  · simp [branchAB, branchBC]
  · simp [branchBC, branchCA]
  · simp [branchCA, totalDist]
  · simp [branchAB]
  · intro t h0 h1
    rw [rotation_eq, fmod_of_lt h0 h1]
  · rw [getPosition_cycleTime]
    simp [branchAB]

/-! ## Rotation axis -/

theorem dot_scale_left (v w : Vec3 ℝ) (s : ℝ) : dot (v.scale s) w = dot v w * s := by
  simp only [dot, Vec3.scale]; ring

theorem length_normalize (v : Vec3 ℝ) (hv : 0 < dot v v) :
    length Real.sqrt (normalize Real.sqrt v) = 1 := by
  have hs : 0 < √(dot v v) := Real.sqrt_pos.mpr hv
  unfold normalize
  rw [length_scale _ (by positivity)]
  simp only [length]
  field_simp

theorem cross_up (d : Vec3 ℝ) : cross d up = ⟨-d.z, 0, d.x⟩ := by
  simp [cross, up]

theorem getRotationAxis_eq (d : Vec3 ℝ) :
    getRotationAxis Real.sqrt d = normalize Real.sqrt (cross d up) := rfl

theorem scale_up (k : ℝ) : (up : Vec3 ℝ).scale k = ⟨0, k, 0⟩ := by
  simp [Vec3.scale, up]

theorem not_parallel_up {d : Vec3 ℝ} (h : ¬ ∃ k : ℝ, d = up.scale k) :
    0 < dot (cross d up) (cross d up) := by
  have hne : d.x ≠ 0 ∨ d.z ≠ 0 := by
    by_contra hcon
    push_neg at hcon
    apply h
    refine ⟨d.y, ?_⟩
    rw [scale_up]
    cases d
    simp_all
  rw [cross_up]
  simp only [dot]
  rcases hne with hx | hz
  · have := mul_self_pos.mpr hx
    nlinarith [mul_self_nonneg d.z]
  · have := mul_self_pos.mpr hz
    nlinarith [mul_self_nonneg d.x]

theorem normalize_x_ne_zero {v : Vec3 ℝ} (hv : 0 < dot v v) (hx : v.x ≠ 0) (k : ℝ) :
    normalize Real.sqrt v ≠ up.scale k := by
  have hs : 0 < √(dot v v) := Real.sqrt_pos.mpr hv
  intro h
  have hx0 := congrArg Vec3.x h
  rw [scale_up] at hx0
  simp only [normalize, Vec3.scale] at hx0
  have : v.x * (1 / √(dot v v)) ≠ 0 := mul_ne_zero hx (by positivity)
  exact this hx0

/-- C9: for a direction `d` that is not parallel to the up vector,
`getRotationAxis(d) = normalize(cross(d, up))` has length `1` and zero dot
product with `d` and with up; `cross(d, up)` is the zero vector exactly when `d`
is parallel to up; none of `B - A`, `C - B`, `A - C` is parallel to up, and the
direction `render` passes at any time is not parallel to up. -/
theorem getRotationAxis_unit_perpendicular :
    (∀ d : Vec3 ℝ, (¬ ∃ k : ℝ, d = up.scale k) →
      getRotationAxis Real.sqrt d = normalize Real.sqrt (cross d up) ∧
      length Real.sqrt (getRotationAxis Real.sqrt d) = 1 ∧
      dot (getRotationAxis Real.sqrt d) d = 0 ∧
      dot (getRotationAxis Real.sqrt d) up = 0) ∧
    (∀ d : Vec3 ℝ, cross d up = Vec3.zero ↔ ∃ k : ℝ, d = up.scale k) ∧
    ((¬ ∃ k : ℝ, vec3 (B.sub A) = up.scale k) ∧ (¬ ∃ k : ℝ, vec3 (C.sub B) = up.scale k) ∧
      (¬ ∃ k : ℝ, vec3 (A.sub C) = up.scale k)) ∧
    (∀ t : ℝ, (¬ ∃ k : ℝ, renderDirection Real.sqrt t = up.scale k) ∧
      length Real.sqrt (renderAxis Real.sqrt t) = 1) := by
  have hlen : ∀ d : Vec3 ℝ, (¬ ∃ k : ℝ, d = up.scale k) →
      length Real.sqrt (getRotationAxis Real.sqrt d) = 1 := fun d hd => by
    rw [getRotationAxis_eq]
    exact length_normalize _ (not_parallel_up hd)
  have hdir : ∀ t : ℝ, ¬ ∃ k : ℝ, renderDirection Real.sqrt t = up.scale k := by
    rintro t ⟨k, hk⟩
    revert hk
    unfold renderDirection
    simp only
    split_ifs
    · exact normalize_x_ne_zero (by rw [dot_BA]; norm_num)
        (by simp [vec3, Vec4.sub, A, B]; norm_num) k
    · exact normalize_x_ne_zero (by rw [dot_CB]; norm_num)
        (by simp [vec3, Vec4.sub, B, C]; norm_num) k
    · exact normalize_x_ne_zero (by rw [dot_AC]; norm_num)
        (by simp [vec3, Vec4.sub, A, C]; norm_num) k
  refine ⟨fun d hd => ⟨rfl, hlen d hd, ?_, ?_⟩, ?_, ⟨?_, ?_, ?_⟩, fun t => ⟨hdir t, ?_⟩⟩
  · rw [getRotationAxis_eq, normalize, dot_scale_left, cross_up]
    simp only [dot]; ring
  · rw [getRotationAxis_eq, normalize, dot_scale_left, cross_up]
    simp only [dot, up]; ring
  · intro d
    rw [cross_up]
    constructor
    · intro h
      simp only [Vec3.zero, Vec3.mk.injEq, neg_eq_zero, true_and] at h
      refine ⟨d.y, ?_⟩
      rw [scale_up]
      cases d
      simp_all
    · rintro ⟨k, rfl⟩
      simp [scale_up, Vec3.zero]
  · rintro ⟨k, hk⟩
    have := congrArg Vec3.x hk
    simp [vec3, Vec4.sub, A, B, scale_up] at this
    norm_num at this
  · rintro ⟨k, hk⟩
    have := congrArg Vec3.x hk
    simp [vec3, Vec4.sub, B, C, scale_up] at this
    norm_num at this
  · rintro ⟨k, hk⟩
    have := congrArg Vec3.x hk
    simp [vec3, Vec4.sub, A, C, scale_up] at this
    norm_num at this
  · exact hlen _ (hdir t)

theorem getRotationAxis_unit_perpendicular_witness :
    length Real.sqrt (getRotationAxis Real.sqrt ⟨1, 0, 0⟩) = 1 ∧
      dot (getRotationAxis Real.sqrt ⟨1, 0, 0⟩) ⟨1, 0, 0⟩ = 0 ∧
      dot (getRotationAxis Real.sqrt ⟨1, 0, 0⟩) up = 0 :=
  (getRotationAxis_unit_perpendicular.1 ⟨1, 0, 0⟩ (by
    rintro ⟨k, hk⟩
    have := congrArg Vec3.x hk
    simp [scale_up] at this)).2

/-! ## Sense of rotation -/

theorem contactVelocity_of_unit_horizontal (d : Vec3 ℝ) (hy : d.y = 0) (h1 : dot d d = 1) :
    contactVelocity Real.sqrt d = d.scale (2 * SPEED) := by
  have hm : dot (cross d up) (cross d up) = 1 := by
    rw [cross_up]
    simp only [dot] at h1 ⊢
    rw [hy] at h1
    linarith
  have hax : getRotationAxis Real.sqrt d = cross d up := by
    rw [getRotationAxis_eq, normalize, hm, Real.sqrt_one]
    simp [Vec3.scale]
  unfold contactVelocity
  simp only [hax, cross_up]
  cases d
  simp only [Vec3.scale, Vec3.add, cross, up, SPEED, RADIUS, Vec3.mk.injEq] at hy ⊢
  subst hy
  refine ⟨?_, ?_, ?_⟩ <;> ring

theorem normalize_unit_horizontal (v : Vec3 ℝ) (hy : v.y = 0) (hv : 0 < dot v v) :
    (normalize Real.sqrt v).y = 0 ∧ dot (normalize Real.sqrt v) (normalize Real.sqrt v) = 1 := by
  have hs : 0 < √(dot v v) := Real.sqrt_pos.mpr hv
  have hsq : √(dot v v) * √(dot v v) = dot v v := Real.mul_self_sqrt hv.le
  constructor
  · simp [normalize, Vec3.scale, hy]
  · have : dot (normalize Real.sqrt v) (normalize Real.sqrt v) =
        dot v v * ((1 / √(dot v v)) * (1 / √(dot v v))) := by
      simp only [normalize, dot, Vec3.scale]; ring
    rw [this]
    field_simp

theorem scale_ne_zero_of_normalize {v : Vec3 ℝ} (hv : 0 < dot v v) (hx : v.x ≠ 0) {s : ℝ}
    (hs : s ≠ 0) : (normalize Real.sqrt v).scale s ≠ Vec3.zero := by
  have hq : 0 < √(dot v v) := Real.sqrt_pos.mpr hv
  intro h
  have hx0 := congrArg Vec3.x h
  simp only [normalize, Vec3.scale, Vec3.zero] at hx0
  have : v.x * (1 / √(dot v v)) * s ≠ 0 := mul_ne_zero (mul_ne_zero hx (by positivity)) hs
  exact this hx0

/-- C10 on the code: on each of the three segments, with `d` the direction
`render` normalizes, the velocity of the contact point
`v + cross(w, -RADIUS * up)` is `2 * SPEED * d`, which is not the zero vector. -/
theorem contactVelocity_segments :
    (contactVelocity Real.sqrt (normalize Real.sqrt (vec3 (B.sub A))) =
        (normalize Real.sqrt (vec3 (B.sub A))).scale (2 * SPEED) ∧
      contactVelocity Real.sqrt (normalize Real.sqrt (vec3 (B.sub A))) ≠ Vec3.zero) ∧
    (contactVelocity Real.sqrt (normalize Real.sqrt (vec3 (C.sub B))) =
        (normalize Real.sqrt (vec3 (C.sub B))).scale (2 * SPEED) ∧
      contactVelocity Real.sqrt (normalize Real.sqrt (vec3 (C.sub B))) ≠ Vec3.zero) ∧
    (contactVelocity Real.sqrt (normalize Real.sqrt (vec3 (A.sub C))) =
        (normalize Real.sqrt (vec3 (A.sub C))).scale (2 * SPEED) ∧
      contactVelocity Real.sqrt (normalize Real.sqrt (vec3 (A.sub C))) ≠ Vec3.zero) := by
  have hS : (2 * SPEED : ℝ) ≠ 0 := by simp [SPEED]
  have hAB : (0 : ℝ) < dot (vec3 (B.sub A)) (vec3 (B.sub A)) := by rw [dot_BA]; norm_num
  have hBC : (0 : ℝ) < dot (vec3 (C.sub B)) (vec3 (C.sub B)) := by rw [dot_CB]; norm_num
  have hCA : (0 : ℝ) < dot (vec3 (A.sub C)) (vec3 (A.sub C)) := by rw [dot_AC]; norm_num
  have e1 := normalize_unit_horizontal (vec3 (B.sub A)) (by simp [vec3, Vec4.sub, A, B]) hAB
  have e2 := normalize_unit_horizontal (vec3 (C.sub B)) (by simp [vec3, Vec4.sub, B, C]) hBC
  have e3 := normalize_unit_horizontal (vec3 (A.sub C)) (by simp [vec3, Vec4.sub, A, C]) hCA
  have c1 := contactVelocity_of_unit_horizontal _ e1.1 e1.2
  have c2 := contactVelocity_of_unit_horizontal _ e2.1 e2.2
  have c3 := contactVelocity_of_unit_horizontal _ e3.1 e3.2
  refine ⟨⟨c1, ?_⟩, ⟨c2, ?_⟩, ⟨c3, ?_⟩⟩
  · rw [c1]
    exact scale_ne_zero_of_normalize hAB (by simp [vec3, Vec4.sub, A, B]; norm_num) hS
  · rw [c2]
    exact scale_ne_zero_of_normalize hBC (by simp [vec3, Vec4.sub, B, C]; norm_num) hS
  · rw [c3]
    exact scale_ne_zero_of_normalize hCA (by simp [vec3, Vec4.sub, A, C]; norm_num) hS

/-- With the operands of the cross product exchanged, `normalize(cross(up, d))`,
the contact point of a sphere moving in a horizontal unit direction `d` would be
at rest. -/
theorem contactVelocity_exchanged_operands (d : Vec3 ℝ) (hy : d.y = 0) (h1 : dot d d = 1) :
    (d.scale SPEED).add
      (cross ((normalize Real.sqrt (cross up d)).scale (SPEED / RADIUS)) (up.scale (-RADIUS))) =
      Vec3.zero := by
  have hc : cross up d = ⟨d.z, 0, -d.x⟩ := by simp [cross, up]
  have hm : dot (cross up d) (cross up d) = 1 := by
    rw [hc]
    simp only [dot] at h1 ⊢
    rw [hy] at h1
    linarith
  have hax : normalize Real.sqrt (cross up d) = cross up d := by
    rw [normalize, hm, Real.sqrt_one]
    simp [Vec3.scale]
  rw [hax, hc]
  cases d
  simp only [Vec3.scale, Vec3.add, cross, up, SPEED, RADIUS, Vec3.zero, Vec3.mk.injEq] at hy ⊢
  subst hy
  refine ⟨?_, ?_, ?_⟩ <;> ring

/-! ## Mesh loader -/

theorem readFloat_cons (tok : Token) (rest : List Token) :
    readFloat (tok :: rest) = some (tok.value, rest) := by
  cases tok <;> rfl

theorem readVertex_cons (a b c : Token) (rest : List Token) :
    readVertex (a :: b :: c :: rest) = some (⟨a.value, b.value, c.value, 1⟩, rest) := by
  simp [readVertex, readFloat_cons]

/-- A record whose vertex count is not `3` costs the loop one iteration and
one token: the coordinates that follow the count stay in the stream. -/
theorem readTriangles_count_ne_three (remaining : Nat) (n : Int) (hn : n ≠ 3)
    (rest : List Token) (triangles : List Triangle) :
    readTriangles (remaining + 1) (Token.int n :: rest) triangles =
      readTriangles remaining rest triangles := by
  simp [readTriangles, readInt, hn]

theorem readTriangles_record (remaining : Nat) (r : Record) (rest : List Token)
    (triangles : List Triangle) :
    readTriangles (remaining + 1) (r.tokens ++ rest) triangles =
      readTriangles remaining rest (triangles ++ [r.triangle]) := by
  simp [readTriangles, readInt, Record.tokens, readVertex_cons, Record.triangle]

theorem readTriangles_records (records : List Record) (rest : List Token)
    (triangles : List Triangle) :
    readTriangles records.length ((records.map Record.tokens).flatten ++ rest) triangles =
      some (triangles ++ records.map Record.triangle) := by
  induction records generalizing triangles with
  | nil => simp [readTriangles]
  | cons r rs ih =>
    simp only [List.length_cons, List.map_cons, List.flatten_cons, List.append_assoc]
    rw [readTriangles_record, ih]
    simp

/-- C6: for a count `N` followed by `N` records
`3 x1 y1 z1 x2 y2 z2 x3 y3 z3`, `readSphereFile` returns exactly `N` triangles,
in file order, the `j`-th vertex of the `i`-th triangle being
`(x_j, y_j, z_j, 1)` of the `i`-th record. -/
theorem readSphereFile_wellFormed (records : List Record) :
    readSphereFile (some (wellFormedFile records)) = some (records.map Record.triangle) ∧
      (records.map Record.triangle).length = records.length ∧
      ∀ r ∈ records,
        r.triangle.vertices0 = ⟨r.x1.value, r.y1.value, r.z1.value, 1⟩ ∧
        r.triangle.vertices1 = ⟨r.x2.value, r.y2.value, r.z2.value, 1⟩ ∧
        r.triangle.vertices2 = ⟨r.x3.value, r.y3.value, r.z3.value, 1⟩ := by
  refine ⟨?_, by simp, fun r _ => ⟨rfl, rfl, rfl⟩⟩
  have h := readTriangles_records records [] []
  simp only [List.append_nil, List.nil_append] at h
  simp [readSphereFile, wellFormedFile, readInt, h]

/-- C3 on the code: a file declaring `2` records, the first with vertex count
`4` and twelve coordinates, the second with vertex count `3` and nine
coordinates. The first iteration reads the count `4`, the second reads the first
coordinate of the first record as a count, and no triangle is loaded. -/
theorem readSphereFile_malformed_then_valid :
    readSphereFile (some
      [Token.int 2,
        Token.int 4, Token.int 0, Token.int 0, Token.int 0, Token.int 1, Token.int 0,
          Token.int 0, Token.int 1, Token.int 1, Token.int 0, Token.int 0, Token.int 1,
          Token.int 0,
        Token.int 3, Token.int 0, Token.int 0, Token.int 0, Token.int 1, Token.int 0,
          Token.int 0, Token.int 0, Token.int 1, Token.int 0]) = some [] := by
  simp [readSphereFile, readInt, readTriangles]

/-! ## Start state and ground contact -/

/-- C7: with the compiled-in constants, `getPosition(0)` returns the position
`A = (-4, 1, 4)` and writes rotation angle `0`. -/
theorem getPosition_zero : getPosition Real.sqrt 0 = (⟨-4, 1, 4⟩, 0) := by
  rw [getPosition_eq, fmod_zero_left, if_pos timeAB_pos.le]
  simp [branchAB, Vec3.add, Vec3.scale, vec3, A]

/-- C8: for every time `t` the `y` coordinate of the position returned by
`getPosition(t)` is `1 = RADIUS`, so the lowest point of the sphere, at height
`y - RADIUS`, lies on the plane `y = 0`. -/
theorem getPosition_y_eq_radius (t : ℝ) :
    (getPosition Real.sqrt t).1.y = 1 ∧ (getPosition Real.sqrt t).1.y = RADIUS ∧
      (getPosition Real.sqrt t).1.y - RADIUS = 0 := by
  have h : (getPosition Real.sqrt t).1.y = 1 := by
    rw [getPosition_eq]
    split_ifs <;> simp [branchAB, branchBC, branchCA, Vec3.add, Vec3.scale, vec3, Vec4.sub, A, B, C]
  simp [h, RADIUS]

end RollingBall
